import Mathlib

/-!
Shallow embedding of the AIM resource manager (`aim/aim_manager.py`).

Resources are application-level objects described by a class (`ResClass`)
declaring identity attributes and other attributes; backing records
(`DbRecord`) are the storage-native rows.  Python dictionaries and object
attribute sets are modelled as association lists over `String` keys with
values in `AVal` (where `AVal.vnone` models Python's `None`).  The
SQLAlchemy session is modelled by `Session`: a record store plus the three
native change-sets (`new`, `dirty`, `deleted`) and a flag recording whether
the manager's pre-commit hook is attached.  Fallible operations return
`Except AimError`, and mutating operations additionally return a trace of
the storage-engine primitives they invoked (`Effect`).
-/

namespace Aim

/-- Attribute values.  `vnone` models Python `None`; concrete payloads are
modelled by naturals and strings, which is enough to express the claims. -/
inductive AVal where
  | vnone
  | vnat (n : Nat)
  | vstr (s : String)
deriving DecidableEq, Repr

/-- A Python dict with string keys, modelled as an association list whose
keys are kept unique by the update operations below. -/
abbrev Attrs := List (String × AVal)

/-- Lookup of a key in an association list (first binding wins, matching
Python dict lookup on the unique-key lists built by `assocSet`). -/
def assocGet? {α β : Type} [DecidableEq α] : List (α × β) → α → Option β
  | [], _ => none
  | (a, b) :: rest, k => if a = k then some b else assocGet? rest k

/-- Setting a key in an association list: replaces the first existing
binding in place, else appends, exactly as a Python dict assignment
behaves with respect to insertion order. -/
def assocSet {α β : Type} [DecidableEq α] : List (α × β) → α → β → List (α × β)
  | [], k, v => [(k, v)]
  | (a, b) :: rest, k, v =>
      if a = k then (a, v) :: rest else (a, b) :: assocSet rest k v

/-- Python `dict.update`: fold the bindings of `u` into `d`, later bindings
overwriting earlier ones. -/
def dictUpdate (d u : Attrs) : Attrs :=
  u.foldl (fun acc kv => assocSet acc kv.1 kv.2) d

/-- Read an attribute with Python's `getattr(obj, k, None)` behaviour:
a missing key reads as `None`. -/
def dictGetD (d : Attrs) (k : String) : AVal :=
  (assocGet? d k).getD AVal.vnone

/-- A resource class: its name plus the declared `identity_attributes` and
`other_attributes` lists (the class-level attribute declarations that
`aim_manager.py` reads off the resource, e.g. `resource.other_attributes`). -/
structure ResClass where
  name : String
  identity_attributes : List String
  other_attributes : List String
deriving DecidableEq, Repr

/-- A resource instance: its class and the attributes set on the object. -/
structure Resource where
  cls : ResClass
  attrs : Attrs
deriving DecidableEq, Repr

/-- A backing database record: the model class it instantiates and its
column values.  Columns never assigned read as `None` (`dictGetD`). -/
structure DbRecord where
  modelCls : String
  attrs : Attrs
deriving DecidableEq, Repr

/-- Modelled from the spec: `apply(record, attrs)` of the Attribute
Translator (the `from_attr` method of the model classes in `aim/db/models.py`,
which is not part of the sources): writes the given attribute values onto
the record in place, leaving all other columns untouched. -/
def DbRecord.from_attr (o : DbRecord) (attr_val : Attrs) : DbRecord :=
  { o with attrs := dictUpdate o.attrs attr_val }

/-- Modelled from the spec: the inverse direction of the Attribute
Translator (`to_attr` of `aim/db/models.py`, not part of the sources):
returns the record's attribute mapping. -/
def DbRecord.to_attr (o : DbRecord) : Attrs :=
  o.attrs

/-- The engine's only self-generated error (`aim.exceptions.UnknownResourceType`). -/
inductive AimError where
  | unknownResourceType (typeName : String)
deriving DecidableEq, Repr

/-- Storage-engine primitives invoked by an operation, recorded as a trace:
opening a (sub)transaction, querying, `session.add`, `session.delete`, and
`sa_event.listen` attaching the pre-commit hook. -/
inductive Effect where
  | txnBegin
  | dbQuery
  | sessAdd
  | sessDelete
  | hookListen
deriving DecidableEq, Repr

/-- The `attr_type` argument of `_extract_attributes`: `None`, `"id"` or
`"other"` in the source. -/
inductive AttrScope where
  | all
  | idOnly
  | otherOnly
deriving DecidableEq, Repr

/-- The manager: the static resource-class-to-model map `_db_model_map`
(model classes are identified by name) and the `_update_listeners` list
(listeners are identified by name; their behaviour is irrelevant to the
claims, only the fact and order of their invocation). -/
structure AimManager where
  db_model_map : List (ResClass × String)
  update_listeners : List String
deriving DecidableEq, Repr

/-- The inverse map `_resource_map` built in `AimManager.__init__` by
inverting `_db_model_map`. -/
def AimManager.resource_map (m : AimManager) : List (String × ResClass) :=
  m.db_model_map.map (fun p => (p.2, p.1))

/-- Modelled from the spec: the storage engine's transactional session
(SQLAlchemy ORM session, an external collaborator).  `db` is the record
store visible to queries; `newSet`, `dirtySet`, `deletedSet` are the
session's native change-sets (`session.new` / `session.dirty` /
`session.deleted`) handed to the pre-commit hook; `hookAttached` records
whether `_before_session_commit` is attached to the session
(`sa_event.contains` / `sa_event.listen`). -/
structure Session where
  db : List DbRecord
  newSet : List DbRecord
  dirtySet : List DbRecord
  deletedSet : List DbRecord
  hookAttached : Bool
deriving DecidableEq, Repr

/-- One listener invocation performed by `_before_session_commit`: the
listener called and the three resource lists passed to it. -/
structure Invocation where
  listener : String
  added : List Resource
  updated : List Resource
  deleted : List Resource
deriving DecidableEq, Repr

/-- `AimManager._extract_attributes(resource, attr_type)`: build a dict,
merging in the identity attributes when the scope allows and then the
other attributes.  The source reads identity attributes with `getattr`
without a default (raising `AttributeError` when one is missing); the
model reads them with a `None` default, and the theorems below that depend
on identity extraction assume `IdPresent`, on which the two agree. -/
def extractAttributes (resource : Resource) (attr_type : AttrScope) : Attrs :=
  let v0 : Attrs := []
  let v1 :=
    if attr_type = AttrScope.all ∨ attr_type = AttrScope.idOnly then
      dictUpdate v0 (resource.cls.identity_attributes.map
        (fun k => (k, dictGetD resource.attrs k)))
    else v0
  if attr_type = AttrScope.all ∨ attr_type = AttrScope.otherOnly then
    dictUpdate v1 (resource.cls.other_attributes.map
      (fun k => (k, dictGetD resource.attrs k)))
  else v1

/-- `AimManager._validate_resource_class`: resolve the backing model class
or raise `UnknownResourceType`. -/
def validateResourceClass (m : AimManager) (res_cls : ResClass) :
    Except AimError String :=
  match assocGet? m.db_model_map res_cls with
  | some dbCls => Except.ok dbCls
  | none => Except.error (AimError.unknownResourceType res_cls.name)

/-- `filter_by(**filt)` on one record: every filter binding must equal the
record's column value. -/
def recordMatches (filt : Attrs) (o : DbRecord) : Bool :=
  filt.all (fun kv => decide (dictGetD o.attrs kv.1 = kv.2))

/-- The predicate of `_query_db`: the record instantiates the model class
and matches the equality filter. -/
def recordPred (dbCls : String) (filt : Attrs) (o : DbRecord) : Bool :=
  decide (o.modelCls = dbCls) && recordMatches filt o

/-- The predicate used by `_query_db_obj` for a resource: the backing model
class of its type, filtered by the resource's identity attributes. -/
def dbObjPred (m : AimManager) (resource : Resource) : DbRecord → Bool :=
  recordPred ((assocGet? m.db_model_map resource.cls).getD "")
    (extractAttributes resource AttrScope.idOnly)

/-- `AimManager._query_db_obj`: first record matching the resource's
identity attributes (`.first()`). -/
def queryDbObj (m : AimManager) (s : Session) (resource : Resource) :
    Option DbRecord :=
  s.db.find? (dbObjPred m resource)

/-- `AimManager._make_db_obj`: a fresh record of the backing model class,
populated from the resource's full attribute extraction. -/
def makeDbObj (m : AimManager) (resource : Resource) : DbRecord :=
  { modelCls := (assocGet? m.db_model_map resource.cls).getD "",
    attrs := dictUpdate [] (extractAttributes resource AttrScope.all) }

/-- `AimManager._make_resource`: compose a resource of class `cls` from the
record's attribute map filtered to the declared attribute names (the
resource constructor `cls(**attr_val)` is modelled, per the spec's
`compose`, as setting exactly the given attributes). -/
def makeResource (cls : ResClass) (o : DbRecord) : Resource :=
  { cls := cls,
    attrs := o.to_attr.filter
      (fun kv => decide (kv.1 ∈ cls.other_attributes ++ cls.identity_attributes)) }

/-- `AimManager._add_commit_hook`: attach `_before_session_commit` to the
session unless `sa_event.contains` reports it already attached.  Returns
the session together with the operation's effect trace, extended with
`hookListen` exactly when `sa_event.listen` runs. -/
def addCommitHook (s : Session) (tr : List Effect) : Session × List Effect :=
  if s.hookAttached then (s, tr)
  else ({ s with hookAttached := true }, tr ++ [Effect.hookListen])

/-- Replace the first record satisfying `p` by its image under `f`,
modelling an in-place mutation of the queried persistent object. -/
def replaceFirst : List DbRecord → (DbRecord → Bool) → (DbRecord → DbRecord) →
    List DbRecord
  | [], _, _ => []
  | o :: rest, p, f => if p o then f o :: rest else o :: replaceFirst rest p f

/-- Remove the first record satisfying `p`, modelling `session.delete` of
the queried persistent object. -/
def removeFirstRecord : List DbRecord → (DbRecord → Bool) → List DbRecord
  | [], _ => []
  | o :: rest, p => if p o then rest else o :: removeFirstRecord rest p

/-- `AimManager.create(context, resource, overwrite)`: validate the class;
inside a subtransaction, when overwriting, query for an existing record by
identity and overwrite its "other" attributes; otherwise stage a freshly
built record; finally register the commit hook. -/
def create (m : AimManager) (s : Session) (resource : Resource)
    (overwrite : Bool) : Except AimError (Session × List Effect) :=
  match validateResourceClass m resource.cls with
  | Except.error e => Except.error e
  | Except.ok _ =>
    if overwrite then
      match queryDbObj m s resource with
      | some o0 =>
          let o1 := o0.from_attr (extractAttributes resource AttrScope.otherOnly)
          let s1 := { s with
            db := replaceFirst s.db (dbObjPred m resource)
              (fun o => o.from_attr (extractAttributes resource AttrScope.otherOnly)),
            dirtySet := s.dirtySet ++ [o1] }
          Except.ok (addCommitHook s1
            [Effect.txnBegin, Effect.dbQuery, Effect.sessAdd])
      | none =>
          let o := makeDbObj m resource
          let s1 := { s with db := s.db ++ [o], newSet := s.newSet ++ [o] }
          Except.ok (addCommitHook s1
            [Effect.txnBegin, Effect.dbQuery, Effect.sessAdd])
    else
      let o := makeDbObj m resource
      let s1 := { s with db := s.db ++ [o], newSet := s.newSet ++ [o] }
      Except.ok (addCommitHook s1 [Effect.txnBegin, Effect.sessAdd])

/-- `AimManager.update(context, resource, **update_attr_val)`: validate the
class; return immediately when the update dict is empty; otherwise, inside
a subtransaction, locate the record by identity and, when found, apply the
update dict filtered to declared "other" attributes and register the hook. -/
def update (m : AimManager) (s : Session) (resource : Resource)
    (update_attr_val : Attrs) : Except AimError (Session × List Effect) :=
  match validateResourceClass m resource.cls with
  | Except.error e => Except.error e
  | Except.ok _ =>
    if update_attr_val.isEmpty then Except.ok (s, [])
    else
      match queryDbObj m s resource with
      | some o0 =>
          let attr_val := update_attr_val.filter
            (fun kv => decide (kv.1 ∈ resource.cls.other_attributes))
          let o1 := o0.from_attr attr_val
          let s1 := { s with
            db := replaceFirst s.db (dbObjPred m resource)
              (fun o => o.from_attr attr_val),
            dirtySet := s.dirtySet ++ [o1] }
          Except.ok (addCommitHook s1
            [Effect.txnBegin, Effect.dbQuery, Effect.sessAdd])
      | none => Except.ok (s, [Effect.txnBegin, Effect.dbQuery])

/-- `AimManager.delete(context, resource)`: validate the class; inside a
subtransaction, locate the record by identity and, when found, stage its
deletion and register the hook; silently no-op when absent. -/
def delete (m : AimManager) (s : Session) (resource : Resource) :
    Except AimError (Session × List Effect) :=
  match validateResourceClass m resource.cls with
  | Except.error e => Except.error e
  | Except.ok _ =>
    match queryDbObj m s resource with
    | some o0 =>
        let s1 := { s with
          db := removeFirstRecord s.db (dbObjPred m resource),
          deletedSet := s.deletedSet ++ [o0] }
        Except.ok (addCommitHook s1
          [Effect.txnBegin, Effect.dbQuery, Effect.sessDelete])
    | none => Except.ok (s, [Effect.txnBegin, Effect.dbQuery])

/-- `AimManager.get(context, resource)`: validate the class, locate the
record by identity, and compose a resource from it, or return `None`. -/
def get (m : AimManager) (s : Session) (resource : Resource) :
    Except AimError (Option Resource) :=
  match validateResourceClass m resource.cls with
  | Except.error e => Except.error e
  | Except.ok _ =>
    match queryDbObj m s resource with
    | some o => Except.ok (some (makeResource resource.cls o))
    | none => Except.ok none

/-- `AimManager.find(context, resource_class, **kwargs)`: validate the
class, filter the criteria to declared attribute names, and compose one
resource per matching record. -/
def find (m : AimManager) (s : Session) (resource_class : ResClass)
    (kwargs : Attrs) : Except AimError (List Resource) :=
  match validateResourceClass m resource_class with
  | Except.error e => Except.error e
  | Except.ok _ =>
    let attr_val := kwargs.filter (fun kv =>
      decide (kv.1 ∈ resource_class.other_attributes ++
        resource_class.identity_attributes))
    let dbCls := (assocGet? m.db_model_map resource_class).getD ""
    Except.ok ((s.db.filter (recordPred dbCls attr_val)).map
      (fun o => makeResource resource_class o))

/-- `AimManager.register_update_listener`: append to `_update_listeners`. -/
def register_update_listener (m : AimManager) (f : String) : AimManager :=
  { m with update_listeners := m.update_listeners ++ [f] }

/-- Remove the first occurrence of `f`, as Python's `list.remove` does. -/
def removeFirstListener : List String → String → List String
  | [], _ => []
  | x :: rest, f => if x = f then rest else x :: removeFirstListener rest f

/-- `AimManager.unregister_update_listener`: `list.remove` drops the first
occurrence of `f` and raises `ValueError` (modelled as `none`) when `f` is
not in the list. -/
def unregister_update_listener (m : AimManager) (f : String) :
    Option AimManager :=
  if f ∈ m.update_listeners then
    some { m with update_listeners := removeFirstListener m.update_listeners f }
  else none

/-- The record-to-resource translation loop of `_before_session_commit`
over one native change-set: records whose model class is in the inverse
map are composed into resources, the rest are skipped. -/
def pickChanged (m : AimManager) (mods : List DbRecord) : List Resource :=
  mods.foldl (fun acc o =>
    match assocGet? m.resource_map o.modelCls with
    | some res_cls => acc ++ [makeResource res_cls o]
    | none => acc) []

/-- `AimManager._before_session_commit`: build the added/updated/deleted
resource lists from the session's three native change-sets, then call
every listener in a copy of `_update_listeners`, in list order, with the
three lists. -/
def beforeSessionCommit (m : AimManager) (s : Session) : List Invocation :=
  let added := pickChanged m s.newSet
  let updated := pickChanged m s.dirtySet
  let deleted := pickChanged m s.deletedSet
  m.update_listeners.map (fun f =>
    { listener := f, added := added, updated := updated, deleted := deleted })

/-- Modelled from the spec: the storage engine fires the attached pre-commit
hook exactly once when the session commits, and fires nothing on a session
the hook was never attached to.  Returns the listener invocations performed
at commit time. -/
def sessionCommit (m : AimManager) (s : Session) : List Invocation :=
  if s.hookAttached then beforeSessionCommit m s else []

/-- One engine call made against a session, for reasoning about whole
sessions of calls. -/
inductive AimOp where
  | opCreate (resource : Resource) (overwrite : Bool)
  | opUpdate (resource : Resource) (update_attr_val : Attrs)
  | opDelete (resource : Resource)
  | opGet (resource : Resource)
  | opFind (resource_class : ResClass) (kwargs : Attrs)
deriving DecidableEq, Repr

/-- Run one engine call against the session.  A raised `UnknownResourceType`
propagates to the caller before the session is touched, so the session is
returned unchanged in that case; `get` and `find` never change the session. -/
def runOp (m : AimManager) (s : Session) : AimOp → Session × List Effect
  | AimOp.opCreate r ow =>
      match create m s r ow with
      | Except.ok st => st
      | Except.error _ => (s, [])
  | AimOp.opUpdate r kvs =>
      match update m s r kvs with
      | Except.ok st => st
      | Except.error _ => (s, [])
  | AimOp.opDelete r =>
      match delete m s r with
      | Except.ok st => st
      | Except.error _ => (s, [])
  | AimOp.opGet _ => (s, [])
  | AimOp.opFind _ _ => (s, [])

/-- Run a sequence of engine calls against the session, concatenating the
effect traces. -/
def runOps (m : AimManager) : Session → List AimOp → Session × List Effect
  | s, [] => (s, [])
  | s, op :: rest =>
      let st1 := runOp m s op
      let st2 := runOps m st1.1 rest
      (st2.1, st1.2 ++ st2.2)

/-- A trace stages a mutation when it contains a `session.add` or a
`session.delete`. -/
def stagedB (tr : List Effect) : Bool :=
  tr.any (fun e => decide (e = Effect.sessAdd) || decide (e = Effect.sessDelete))

/-- The resource carries a value for every declared identity attribute of
class `c` (so the source's `getattr` without a default cannot raise). -/
def IdPresent (c : ResClass) (r : Resource) : Prop :=
  ∀ k ∈ c.identity_attributes, (assocGet? r.attrs k).isSome = true

instance instDecidableIdPresent (c : ResClass) (r : Resource) :
    Decidable (IdPresent c r) :=
  inferInstanceAs (Decidable
    (∀ k ∈ c.identity_attributes, (assocGet? r.attrs k).isSome = true))

/-- Equality of two resources on all declared identity and other
attributes of class `c`. -/
def attrEqB (c : ResClass) (r1 r2 : Resource) : Bool :=
  (c.identity_attributes ++ c.other_attributes).all
    (fun k => decide (dictGetD r1.attrs k = dictGetD r2.attrs k))

/-- Success test for engine results. -/
def isOkB {α : Type} : Except AimError α → Bool
  | Except.ok _ => true
  | Except.error _ => false

/-! Concrete fixtures used to evaluate the development on closed inputs. -/

/-- A concrete resource class in the shape of `BridgeDomain`. -/
def bdCls : ResClass :=
  { name := "BridgeDomain",
    identity_attributes := ["tenant_rn", "rn"],
    other_attributes := ["vrf_rn", "enable_routing"] }

/-- A manager with `bdCls` registered and one listener. -/
def mgrW : AimManager :=
  { db_model_map := [(bdCls, "BridgeDomainModel")],
    update_listeners := ["listener_one"] }

/-- An empty, clean session. -/
def sessW : Session :=
  { db := [], newSet := [], dirtySet := [], deletedSet := [], hookAttached := false }

/-- A concrete resource of class `bdCls` (with `enable_routing` left unset). -/
def resW : Resource :=
  { cls := bdCls,
    attrs := [("tenant_rn", AVal.vstr "t1"), ("rn", AVal.vstr "bd1"),
              ("vrf_rn", AVal.vstr "v1")] }

/-- A resource carrying only the identity attributes of `resW`. -/
def resQW : Resource :=
  { cls := bdCls,
    attrs := [("tenant_rn", AVal.vstr "t1"), ("rn", AVal.vstr "bd1")] }

/-- An existing backing record with the identity of `resW` and old payload. -/
def recW : DbRecord :=
  { modelCls := "BridgeDomainModel",
    attrs := [("tenant_rn", AVal.vstr "t1"), ("rn", AVal.vstr "bd1"),
              ("vrf_rn", AVal.vstr "old"), ("enable_routing", AVal.vnat 1)] }

/-- A session whose store already holds `recW`. -/
def sessDbW : Session :=
  { db := [recW], newSet := [], dirtySet := [], deletedSet := [],
    hookAttached := false }

/-- A resource of a class that is not registered in `mgrW`. -/
def resUnknownW : Resource :=
  { cls := { name := "Tenant", identity_attributes := ["rn"],
             other_attributes := ["descr"] },
    attrs := [("rn", AVal.vstr "t1")] }

/-- A manager on which the same listener name was registered twice. -/
def mgrDupW : AimManager :=
  { db_model_map := [(bdCls, "BridgeDomainModel")],
    update_listeners := ["dup_listener", "dup_listener"] }

/-- A session with the hook attached whose only pending record belongs to a
model class unknown to the manager. -/
def sessForeignW : Session :=
  { db := [], newSet := [{ modelCls := "UnrelatedModel", attrs := [] }],
    dirtySet := [], deletedSet := [], hookAttached := true }

/-- A hook-attached session with empty change-sets. -/
def sessHookedW : Session :=
  { db := [], newSet := [], dirtySet := [], deletedSet := [],
    hookAttached := true }

/-- The manager `mgrW` after its only listener has been removed. -/
def mgrEmptyW : AimManager :=
  { db_model_map := [(bdCls, "BridgeDomainModel")], update_listeners := [] }

end Aim

/-! Association-list (Python dict) lemmas. -/

namespace Aim

theorem assocGet?_assocSet {α β : Type} [DecidableEq α]
    (d : List (α × β)) (k k1 : α) (v : β) :
    assocGet? (assocSet d k v) k1 = if k = k1 then some v else assocGet? d k1 := by
  induction d with
  | nil =>
      by_cases h : k = k1 <;> simp [assocSet, assocGet?, h]
  | cons p rest ih =>
      obtain ⟨a, b⟩ := p
      by_cases hak : a = k
      · subst hak
        by_cases hk1 : a = k1 <;> simp [assocSet, assocGet?, hk1]
      · by_cases hak1 : a = k1
        · subst hak1
          have hk1 : ¬ k = a := fun h => hak h.symm
          simp [assocSet, assocGet?, hak, hk1]
        · simp [assocSet, assocGet?, hak, hak1, ih]

theorem mem_keys_assocSet {α β : Type} [DecidableEq α]
    (d : List (α × β)) (k : α) (v : β) (k1 : α) :
    k1 ∈ (assocSet d k v).map Prod.fst ↔ k1 = k ∨ k1 ∈ d.map Prod.fst := by
  induction d with
  | nil => simp [assocSet]
  | cons p rest ih =>
      obtain ⟨a, b⟩ := p
      by_cases hak : a = k
      · subst hak
        by_cases h1 : k1 = a <;> simp [assocSet, h1]
      · simp [assocSet, hak, ih]
        tauto

theorem nodupKeys_assocSet {α β : Type} [DecidableEq α]
    (d : List (α × β)) (k : α) (v : β) (h : (d.map Prod.fst).Nodup) :
    ((assocSet d k v).map Prod.fst).Nodup := by
  induction d with
  | nil => simp [assocSet]
  | cons p rest ih =>
      obtain ⟨a, b⟩ := p
      simp only [List.map_cons, List.nodup_cons] at h
      by_cases hak : a = k
      · subst hak
        simpa [assocSet] using h
      · have := ih h.2
        simp only [assocSet, hak, if_false, List.map_cons, List.nodup_cons]
        refine ⟨fun hmem => ?_, this⟩
        rcases (mem_keys_assocSet rest k v a).mp hmem with h1 | h1
        · exact hak h1
        · exact h.1 h1

theorem assocGet?_eq_none_iff {α β : Type} [DecidableEq α]
    (d : List (α × β)) (k : α) :
    assocGet? d k = none ↔ k ∉ d.map Prod.fst := by
  induction d with
  | nil => simp [assocGet?]
  | cons p rest ih =>
      obtain ⟨a, b⟩ := p
      by_cases hak : a = k
      · subst hak
        simp [assocGet?]
      · have hka : ¬ k = a := fun h => hak h.symm
        simp [assocGet?, hak, hka, ih]

theorem assocGet?_mem {α β : Type} [DecidableEq α]
    (d : List (α × β)) (k : α) (v : β) (h : assocGet? d k = some v) :
    (k, v) ∈ d := by
  induction d with
  | nil => simp [assocGet?] at h
  | cons p rest ih =>
      obtain ⟨a, b⟩ := p
      by_cases hak : a = k
      · subst hak
        simp [assocGet?] at h
        simp [h]
      · simp [assocGet?, hak] at h
        exact List.mem_cons_of_mem _ (ih h)

theorem dictUpdate_cons (d : Attrs) (k : String) (v : AVal) (rest : Attrs) :
    dictUpdate d ((k, v) :: rest) = dictUpdate (assocSet d k v) rest := rfl

theorem assocGet?_dictUpdate_uniform (g : String → AVal) (u : Attrs) :
    ∀ d : Attrs, (∀ p ∈ u, p.2 = g p.1) → ∀ k : String,
      assocGet? (dictUpdate d u) k =
        if k ∈ u.map Prod.fst then some (g k) else assocGet? d k := by
  induction u with
  | nil => intro d _ k; simp [dictUpdate]
  | cons p rest ih =>
      intro d hu k
      obtain ⟨k0, v0⟩ := p
      have hv0 : v0 = g k0 := hu (k0, v0) (List.mem_cons_self _ _)
      have hrest : ∀ q ∈ rest, q.2 = g q.1 :=
        fun q hq => hu q (List.mem_cons_of_mem _ hq)
      rw [dictUpdate_cons, ih (assocSet d k0 v0) hrest k, assocGet?_assocSet]
      by_cases h1 : k ∈ rest.map Prod.fst
      · simp [h1]
      · by_cases h2 : k0 = k
        · subst h2
          simp [h1, hv0]
        · have h2s : ¬ k = k0 := fun h => h2 h.symm
          simp [h1, h2, h2s]

theorem mem_keys_dictUpdate (u : Attrs) :
    ∀ (d : Attrs) (k : String),
      k ∈ (dictUpdate d u).map Prod.fst ↔
        k ∈ u.map Prod.fst ∨ k ∈ d.map Prod.fst := by
  induction u with
  | nil => intro d k; simp [dictUpdate]
  | cons p rest ih =>
      intro d k
      obtain ⟨k0, v0⟩ := p
      rw [dictUpdate_cons, ih (assocSet d k0 v0) k]
      rw [mem_keys_assocSet]
      simp only [List.map_cons, List.mem_cons]
      tauto

theorem nodupKeys_dictUpdate (u : Attrs) :
    ∀ d : Attrs, (d.map Prod.fst).Nodup → ((dictUpdate d u).map Prod.fst).Nodup := by
  induction u with
  | nil => intro d h; simpa [dictUpdate] using h
  | cons p rest ih =>
      intro d h
      obtain ⟨k0, v0⟩ := p
      rw [dictUpdate_cons]
      exact ih _ (nodupKeys_assocSet d k0 v0 h)

theorem uniform_assocSet (g : String → AVal) (d : Attrs) (k : String) (v : AVal)
    (hd : ∀ p ∈ d, p.2 = g p.1) (hv : v = g k) :
    ∀ p ∈ assocSet d k v, p.2 = g p.1 := by
  induction d with
  | nil =>
      intro p hp
      simp [assocSet] at hp
      simp [hp, hv]
  | cons q rest ih =>
      obtain ⟨a, b⟩ := q
      intro p hp
      have hb : b = g a := hd (a, b) (List.mem_cons_self _ _)
      have hdrest : ∀ p ∈ rest, p.2 = g p.1 :=
        fun p hp => hd p (List.mem_cons_of_mem _ hp)
      by_cases hak : a = k
      · subst hak
        simp [assocSet] at hp
        rcases hp with hp | hp
        · simp [hp, hv]
        · exact hd p (List.mem_cons_of_mem _ hp)
      · simp [assocSet, hak] at hp
        rcases hp with hp | hp
        · simp [hp, hb]
        · exact ih hdrest p hp

theorem uniform_dictUpdate (g : String → AVal) (u : Attrs) :
    ∀ d : Attrs, (∀ p ∈ u, p.2 = g p.1) → (∀ p ∈ d, p.2 = g p.1) →
      ∀ p ∈ dictUpdate d u, p.2 = g p.1 := by
  induction u with
  | nil => intro d _ hd; simpa [dictUpdate] using hd
  | cons q rest ih =>
      intro d hu hd
      obtain ⟨k0, v0⟩ := q
      have hv0 : v0 = g k0 := hu (k0, v0) (List.mem_cons_self _ _)
      have hrest : ∀ p ∈ rest, p.2 = g p.1 :=
        fun p hp => hu p (List.mem_cons_of_mem _ hp)
      rw [dictUpdate_cons]
      exact ih _ hrest (uniform_assocSet g d k0 v0 hd hv0)

theorem assocGet?_dictUpdate_nodup (u : Attrs) :
    ∀ d : Attrs, (u.map Prod.fst).Nodup → ∀ k : String,
      assocGet? (dictUpdate d u) k =
        match assocGet? u k with
        | some v => some v
        | none => assocGet? d k := by
  induction u with
  | nil => intro d _ k; simp [dictUpdate, assocGet?]
  | cons p rest ih =>
      intro d hnd k
      obtain ⟨k0, v0⟩ := p
      simp only [List.map_cons, List.nodup_cons] at hnd
      rw [dictUpdate_cons, ih (assocSet d k0 v0) hnd.2 k]
      by_cases h2 : k0 = k
      · subst h2
        have hnone : assocGet? rest k0 = none :=
          (assocGet?_eq_none_iff rest k0).mpr hnd.1
        simp [assocGet?, hnone, assocGet?_assocSet]
      · simp only [assocGet?, h2, if_false]
        cases hr : assocGet? rest k with
        | some v => simp
        | none =>
            simp [assocGet?_assocSet, h2]

theorem assocGet?_filter {α β : Type} [DecidableEq α]
    (d : List (α × β)) (p : α → Bool) (k : α) :
    assocGet? (d.filter (fun kv => p kv.1)) k =
      if p k then assocGet? d k else none := by
  induction d with
  | nil => simp [assocGet?]
  | cons q rest ih =>
      obtain ⟨a, b⟩ := q
      by_cases hak : a = k
      · subst hak
        cases hpa : p a <;> simp [assocGet?, hpa, ih]
      · cases hpa : p a <;> simp [assocGet?, hak, hpa, ih]

theorem map_pair_congr (l : List String) (g1 g2 : String → AVal)
    (h : ∀ k ∈ l, g1 k = g2 k) :
    l.map (fun k => (k, g1 k)) = l.map (fun k => (k, g2 k)) := by
  induction l with
  | nil => rfl
  | cons a rest ih =>
      simp only [List.map_cons, List.cons.injEq]
      exact ⟨by rw [h a (List.mem_cons_self _ _)],
        ih (fun k hk => h k (List.mem_cons_of_mem _ hk))⟩

theorem extractAttributes_idOnly (r : Resource) :
    extractAttributes r AttrScope.idOnly =
      dictUpdate [] (r.cls.identity_attributes.map
        (fun k => (k, dictGetD r.attrs k))) := rfl

theorem extractAttributes_otherOnly (r : Resource) :
    extractAttributes r AttrScope.otherOnly =
      dictUpdate [] (r.cls.other_attributes.map
        (fun k => (k, dictGetD r.attrs k))) := rfl

theorem extractAttributes_all (r : Resource) :
    extractAttributes r AttrScope.all =
      dictUpdate
        (dictUpdate [] (r.cls.identity_attributes.map
          (fun k => (k, dictGetD r.attrs k))))
        (r.cls.other_attributes.map (fun k => (k, dictGetD r.attrs k))) := rfl

theorem uniform_map_pair (g : String → AVal) (l : List String) :
    ∀ p ∈ l.map (fun k => (k, g k)), p.2 = g p.1 := by
  intro p hp
  simp only [List.mem_map] at hp
  obtain ⟨a, _, rfl⟩ := hp
  rfl

theorem assocGet?_extract_id (r : Resource) (k : String) :
    assocGet? (extractAttributes r AttrScope.idOnly) k =
      if k ∈ r.cls.identity_attributes then some (dictGetD r.attrs k)
      else none := by
  rw [extractAttributes_idOnly,
    assocGet?_dictUpdate_uniform (dictGetD r.attrs) _ []
      (uniform_map_pair (dictGetD r.attrs) _) k]
  simp [assocGet?, List.map_map, Function.comp]

theorem assocGet?_extract_other (r : Resource) (k : String) :
    assocGet? (extractAttributes r AttrScope.otherOnly) k =
      if k ∈ r.cls.other_attributes then some (dictGetD r.attrs k)
      else none := by
  rw [extractAttributes_otherOnly,
    assocGet?_dictUpdate_uniform (dictGetD r.attrs) _ []
      (uniform_map_pair (dictGetD r.attrs) _) k]
  simp [assocGet?, List.map_map, Function.comp]

theorem assocGet?_extract_all (r : Resource) (k : String) :
    assocGet? (extractAttributes r AttrScope.all) k =
      if k ∈ r.cls.identity_attributes ∨ k ∈ r.cls.other_attributes
      then some (dictGetD r.attrs k) else none := by
  rw [extractAttributes_all,
    assocGet?_dictUpdate_uniform (dictGetD r.attrs) _ _
      (uniform_map_pair (dictGetD r.attrs) _) k,
    assocGet?_dictUpdate_uniform (dictGetD r.attrs) _ []
      (uniform_map_pair (dictGetD r.attrs) _) k]
  by_cases h1 : k ∈ r.cls.identity_attributes <;>
    by_cases h2 : k ∈ r.cls.other_attributes <;>
      simp [assocGet?, List.map_map, Function.comp, h1, h2]

theorem uniform_extract (r : Resource) (sc : AttrScope) :
    ∀ p ∈ extractAttributes r sc, p.2 = dictGetD r.attrs p.1 := by
  cases sc with
  | all =>
      rw [extractAttributes_all]
      exact uniform_dictUpdate (dictGetD r.attrs) _ _
        (uniform_map_pair (dictGetD r.attrs) _)
        (uniform_dictUpdate (dictGetD r.attrs) _ []
          (uniform_map_pair (dictGetD r.attrs) _) (by simp))
  | idOnly =>
      rw [extractAttributes_idOnly]
      exact uniform_dictUpdate (dictGetD r.attrs) _ []
        (uniform_map_pair (dictGetD r.attrs) _) (by simp)
  | otherOnly =>
      rw [extractAttributes_otherOnly]
      exact uniform_dictUpdate (dictGetD r.attrs) _ []
        (uniform_map_pair (dictGetD r.attrs) _) (by simp)

theorem nodupKeys_extract (r : Resource) (sc : AttrScope) :
    ((extractAttributes r sc).map Prod.fst).Nodup := by
  cases sc with
  | all =>
      rw [extractAttributes_all]
      exact nodupKeys_dictUpdate _ _ (nodupKeys_dictUpdate _ [] (by simp))
  | idOnly =>
      rw [extractAttributes_idOnly]
      exact nodupKeys_dictUpdate _ [] (by simp)
  | otherOnly =>
      rw [extractAttributes_otherOnly]
      exact nodupKeys_dictUpdate _ [] (by simp)

theorem mem_keys_extract_id (r : Resource) (k : String) :
    k ∈ (extractAttributes r AttrScope.idOnly).map Prod.fst ↔
      k ∈ r.cls.identity_attributes := by
  rw [extractAttributes_idOnly, mem_keys_dictUpdate]
  simp [List.map_map, Function.comp]

theorem mem_keys_extract_other (r : Resource) (k : String) :
    k ∈ (extractAttributes r AttrScope.otherOnly).map Prod.fst ↔
      k ∈ r.cls.other_attributes := by
  rw [extractAttributes_otherOnly, mem_keys_dictUpdate]
  simp [List.map_map, Function.comp]

theorem recordMatches_extract_id_iff (r : Resource) (o : DbRecord) :
    recordMatches (extractAttributes r AttrScope.idOnly) o = true ↔
      ∀ k ∈ r.cls.identity_attributes,
        dictGetD o.attrs k = dictGetD r.attrs k := by
  unfold recordMatches
  rw [List.all_eq_true]
  constructor
  · intro h k hk
    have hget : assocGet? (extractAttributes r AttrScope.idOnly) k =
        some (dictGetD r.attrs k) := by
      rw [assocGet?_extract_id]
      simp [hk]
    have hmem := assocGet?_mem _ _ _ hget
    exact of_decide_eq_true (h _ hmem)
  · intro h kv hkv
    have h2 : kv.2 = dictGetD r.attrs kv.1 := uniform_extract r _ kv hkv
    have h1 : kv.1 ∈ r.cls.identity_attributes := by
      have hm : kv.1 ∈ (extractAttributes r AttrScope.idOnly).map Prod.fst :=
        List.mem_map_of_mem Prod.fst hkv
      rwa [mem_keys_extract_id] at hm
    rw [decide_eq_true_eq, h2]
    exact h kv.1 h1

theorem find?_append_of_none {α : Type} (l1 l2 : List α) (p : α → Bool)
    (h : ∀ x ∈ l1, p x = false) : (l1 ++ l2).find? p = l2.find? p := by
  induction l1 with
  | nil => simp
  | cons x rest ih =>
      have hx := h x (List.mem_cons_self _ _)
      rw [List.cons_append, List.find?_cons_of_neg _ (by simp [hx])]
      exact ih (fun y hy => h y (List.mem_cons_of_mem _ hy))

theorem extract_id_congr (r rq : Resource) (hc : rq.cls = r.cls)
    (h : ∀ k ∈ r.cls.identity_attributes,
      dictGetD rq.attrs k = dictGetD r.attrs k) :
    extractAttributes rq AttrScope.idOnly =
      extractAttributes r AttrScope.idOnly := by
  rw [extractAttributes_idOnly, extractAttributes_idOnly, hc]
  exact congrArg _ (map_pair_congr _ _ _ h)

theorem dbObjPred_congr (m : AimManager) (r rq : Resource) (hc : rq.cls = r.cls)
    (h : ∀ k ∈ r.cls.identity_attributes,
      dictGetD rq.attrs k = dictGetD r.attrs k) :
    dbObjPred m rq = dbObjPred m r := by
  unfold dbObjPred
  rw [hc, extract_id_congr r rq hc h]

theorem addCommitHook_hookAttached (s : Session) (tr : List Effect) :
    ((addCommitHook s tr).1).hookAttached = true := by
  by_cases h : s.hookAttached <;> simp [addCommitHook, h]

theorem addCommitHook_db (s : Session) (tr : List Effect) :
    ((addCommitHook s tr).1).db = s.db := by
  by_cases h : s.hookAttached <;> simp [addCommitHook, h]

theorem addCommitHook_of_attached (s : Session) (tr : List Effect)
    (h : s.hookAttached = true) : addCommitHook s tr = (s, tr) := by
  simp [addCommitHook, h]

theorem stagedB_addCommitHook (s : Session) (tr : List Effect) :
    stagedB ((addCommitHook s tr).2) = stagedB tr := by
  by_cases h : s.hookAttached <;> simp [addCommitHook, h, stagedB]

theorem stagedB_append (a b : List Effect) :
    stagedB (a ++ b) = (stagedB a || stagedB b) := by
  simp [stagedB, List.any_append]

theorem runOp_hookAttached (m : AimManager) (s : Session) (op : AimOp) :
    ((runOp m s op).1).hookAttached =
      (s.hookAttached || stagedB (runOp m s op).2) := by
  have h1 : stagedB [Effect.txnBegin, Effect.dbQuery, Effect.sessAdd] = true := by
    decide
  have h2 : stagedB [Effect.txnBegin, Effect.sessAdd] = true := by decide
  have h3 : stagedB [Effect.txnBegin, Effect.dbQuery] = false := by decide
  have h4 : stagedB ([] : List Effect) = false := by decide
  have h5 : stagedB [Effect.txnBegin, Effect.dbQuery, Effect.sessDelete] = true := by
    decide
  cases op with
  | opCreate r ow =>
      simp only [runOp]
      cases hv : validateResourceClass m r.cls with
      | error e => simp [create, hv, h4]
      | ok dbc =>
          cases ow with
          | true =>
              cases hqd : queryDbObj m s r with
              | some o0 =>
                  simp [create, hv, hqd, addCommitHook_hookAttached,
                    stagedB_addCommitHook, h1]
              | none =>
                  simp [create, hv, hqd, addCommitHook_hookAttached,
                    stagedB_addCommitHook, h1]
          | false =>
              simp [create, hv, addCommitHook_hookAttached,
                stagedB_addCommitHook, h2]
  | opUpdate r kvs =>
      simp only [runOp]
      cases hv : validateResourceClass m r.cls with
      | error e => simp [update, hv, h4]
      | ok dbc =>
          cases hkv : kvs.isEmpty with
          | true => simp [update, hv, hkv, h4]
          | false =>
              cases hqd : queryDbObj m s r with
              | some o0 =>
                  simp [update, hv, hkv, hqd, addCommitHook_hookAttached,
                    stagedB_addCommitHook, h1]
              | none => simp [update, hv, hkv, hqd, h3]
  | opDelete r =>
      simp only [runOp]
      cases hv : validateResourceClass m r.cls with
      | error e => simp [delete, hv, h4]
      | ok dbc =>
          cases hqd : queryDbObj m s r with
          | some o0 =>
              simp [delete, hv, hqd, addCommitHook_hookAttached,
                stagedB_addCommitHook, h5]
          | none => simp [delete, hv, hqd, h3]
  | opGet r => simp [runOp, h4]
  | opFind c kvs => simp [runOp, h4]

theorem runOps_hookAttached (m : AimManager) (ops : List AimOp) :
    ∀ s : Session, ((runOps m s ops).1).hookAttached =
      (s.hookAttached || stagedB (runOps m s ops).2) := by
  induction ops with
  | nil => intro s; simp [runOps, stagedB]
  | cons op rest ih =>
      intro s
      simp only [runOps]
      rw [ih (runOp m s op).1, runOp_hookAttached m s op, stagedB_append,
        Bool.or_assoc]

theorem map_listener_mk (added updated deleted : List Resource)
    (l : List String) :
    (l.map (fun f =>
      { listener := f, added := added, updated := updated,
        deleted := deleted : Invocation })).map Invocation.listener = l := by
  induction l with
  | nil => rfl
  | cons x rest ih => simp only [List.map_cons, ih]

theorem map_listener_beforeSessionCommit (m : AimManager) (s : Session) :
    (beforeSessionCommit m s).map Invocation.listener = m.update_listeners := by
  unfold beforeSessionCommit
  exact map_listener_mk _ _ _ _

theorem map_listener_sessionCommit (m : AimManager) (s : Session)
    (h : s.hookAttached = true) :
    (sessionCommit m s).map Invocation.listener = m.update_listeners := by
  simp [sessionCommit, h, map_listener_beforeSessionCommit]

theorem pickChanged_go_nil (m : AimManager) :
    ∀ mods : List DbRecord,
      (∀ o ∈ mods, assocGet? m.resource_map o.modelCls = none) →
      ∀ acc : List Resource,
        mods.foldl (fun acc o =>
          match assocGet? m.resource_map o.modelCls with
          | some res_cls => acc ++ [makeResource res_cls o]
          | none => acc) acc = acc := by
  intro mods
  induction mods with
  | nil => intro _ acc; rfl
  | cons o rest ih =>
      intro h acc
      have ho := h o (List.mem_cons_self _ _)
      simp only [List.foldl_cons, ho]
      exact ih (fun x hx => h x (List.mem_cons_of_mem _ hx)) acc

theorem pickChanged_nil (m : AimManager) (mods : List DbRecord)
    (h : ∀ o ∈ mods, assocGet? m.resource_map o.modelCls = none) :
    pickChanged m mods = [] := by
  unfold pickChanged
  exact pickChanged_go_nil m mods h []

theorem not_mem_removeFirstListener (l : List String) (f : String)
    (h : l.count f ≤ 1) : f ∉ removeFirstListener l f := by
  induction l with
  | nil => simp [removeFirstListener]
  | cons x rest ih =>
      by_cases hx : x = f
      · subst hx
        rw [List.count_cons_self] at h
        have h0 : rest.count x = 0 := by omega
        simpa [removeFirstListener] using List.count_eq_zero.mp h0
      · rw [List.count_cons_of_ne (fun he => hx he.symm)] at h
        simp only [removeFirstListener, hx, if_false, List.mem_cons, not_or]
        exact ⟨fun he => hx he.symm, ih h⟩

theorem unregister_some (m : AimManager) (f : String) (m1 : AimManager)
    (h : unregister_update_listener m f = some m1) :
    m1 = { m with
      update_listeners := removeFirstListener m.update_listeners f } := by
  unfold unregister_update_listener at h
  by_cases hf : f ∈ m.update_listeners
  · simp [hf] at h
    exact h.symm
  · simp [hf] at h

end Aim

/-! Claim theorems. -/

namespace Aim

/-- C4: for every registered resource and session, `update` with an empty
changed-attribute set is a complete no-op: the session is returned
unchanged and the effect trace is empty, so no transaction is opened, no
record is queried or modified, and the commit hook is not registered. -/
theorem c4_empty_update_noop (m : AimManager) (s : Session) (r : Resource)
    (dbCls : String) (hreg : assocGet? m.db_model_map r.cls = some dbCls) :
    update m s r [] = Except.ok (s, []) := by
  simp [update, validateResourceClass, hreg]

/-- Witness for C4 at a concrete registered resource and populated session. -/
theorem c4_empty_update_noop_witness :
    assocGet? mgrW.db_model_map resW.cls = some "BridgeDomainModel" ∧
    update mgrW sessDbW resW [] = Except.ok (sessDbW, []) :=
  ⟨by decide,
    c4_empty_update_noop mgrW sessDbW resW "BridgeDomainModel" (by decide)⟩

/-- C10: `update` on a resource of an unregistered class raises
`UnknownResourceType` even when the changed-attribute set is empty:
validation precedes the empty-payload no-op check. -/
theorem c10_validate_precedes_empty_check (m : AimManager) (s : Session)
    (r : Resource) (hunreg : assocGet? m.db_model_map r.cls = none) :
    update m s r [] =
      Except.error (AimError.unknownResourceType r.cls.name) := by
  simp [update, validateResourceClass, hunreg]

/-- Witness for C10 at a concrete unregistered resource. -/
theorem c10_validate_precedes_empty_check_witness :
    assocGet? mgrW.db_model_map resUnknownW.cls = none ∧
    update mgrW sessW resUnknownW [] =
      Except.error (AimError.unknownResourceType resUnknownW.cls.name) :=
  ⟨by decide, c10_validate_precedes_empty_check mgrW sessW resUnknownW (by decide)⟩

/-- C5: every public operation raises `UnknownResourceType` exactly when
its resource class is unregistered, and succeeds otherwise (for resources
carrying their identity attributes), so `UnknownResourceType` is the only
error the engine itself generates; storage-layer failures are outside the
model, which treats the storage primitives as total. -/
theorem c5_unknown_resource_type_only (m : AimManager) (s : Session)
    (r : Resource) (res_cls : ResClass) (kvs : Attrs) (ow : Bool)
    (_hid : IdPresent r.cls r) :
    ((assocGet? m.db_model_map r.cls = none →
        create m s r ow =
          Except.error (AimError.unknownResourceType r.cls.name) ∧
        update m s r kvs =
          Except.error (AimError.unknownResourceType r.cls.name) ∧
        delete m s r =
          Except.error (AimError.unknownResourceType r.cls.name) ∧
        get m s r =
          Except.error (AimError.unknownResourceType r.cls.name)) ∧
      (assocGet? m.db_model_map res_cls = none →
        find m s res_cls kvs =
          Except.error (AimError.unknownResourceType res_cls.name)) ∧
      ((assocGet? m.db_model_map r.cls).isSome = true →
        isOkB (create m s r ow) = true ∧ isOkB (update m s r kvs) = true ∧
        isOkB (delete m s r) = true ∧ isOkB (get m s r) = true) ∧
      ((assocGet? m.db_model_map res_cls).isSome = true →
        isOkB (find m s res_cls kvs) = true)) := by
  refine ⟨?_, ?_, ?_, ?_⟩
  · intro h
    refine ⟨?_, ?_, ?_, ?_⟩
    · simp [create, validateResourceClass, h]
    · simp [update, validateResourceClass, h]
    · simp [delete, validateResourceClass, h]
    · simp [get, validateResourceClass, h]
  · intro h
    simp [find, validateResourceClass, h]
  · intro h
    obtain ⟨dbc, hdbc⟩ := Option.isSome_iff_exists.mp h
    refine ⟨?_, ?_, ?_, ?_⟩
    · cases ow with
      | true =>
          cases hq : queryDbObj m s r with
          | some o0 => simp [create, validateResourceClass, hdbc, hq, isOkB]
          | none => simp [create, validateResourceClass, hdbc, hq, isOkB]
      | false => simp [create, validateResourceClass, hdbc, isOkB]
    · cases hkv : kvs.isEmpty with
      | true => simp [update, validateResourceClass, hdbc, hkv, isOkB]
      | false =>
          cases hq : queryDbObj m s r with
          | some o0 =>
              simp [update, validateResourceClass, hdbc, hkv, hq, isOkB]
          | none => simp [update, validateResourceClass, hdbc, hkv, hq, isOkB]
    · cases hq : queryDbObj m s r with
      | some o0 => simp [delete, validateResourceClass, hdbc, hq, isOkB]
      | none => simp [delete, validateResourceClass, hdbc, hq, isOkB]
    · cases hq : queryDbObj m s r with
      | some o0 => simp [get, validateResourceClass, hdbc, hq, isOkB]
      | none => simp [get, validateResourceClass, hdbc, hq, isOkB]
  · intro h
    obtain ⟨dbc, hdbc⟩ := Option.isSome_iff_exists.mp h
    simp [find, validateResourceClass, hdbc, isOkB]

/-- Witness for C5 at a concrete registered resource, an unregistered
class for `find`, and a non-empty update payload. -/
theorem c5_unknown_resource_type_only_witness :
    IdPresent resW.cls resW ∧
    ((assocGet? mgrW.db_model_map resW.cls = none →
        create mgrW sessDbW resW true =
          Except.error (AimError.unknownResourceType resW.cls.name) ∧
        update mgrW sessDbW resW [("vrf_rn", AVal.vstr "v2")] =
          Except.error (AimError.unknownResourceType resW.cls.name) ∧
        delete mgrW sessDbW resW =
          Except.error (AimError.unknownResourceType resW.cls.name) ∧
        get mgrW sessDbW resW =
          Except.error (AimError.unknownResourceType resW.cls.name)) ∧
      (assocGet? mgrW.db_model_map resUnknownW.cls = none →
        find mgrW sessDbW resUnknownW.cls [("vrf_rn", AVal.vstr "v2")] =
          Except.error (AimError.unknownResourceType resUnknownW.cls.name)) ∧
      ((assocGet? mgrW.db_model_map resW.cls).isSome = true →
        isOkB (create mgrW sessDbW resW true) = true ∧
        isOkB (update mgrW sessDbW resW [("vrf_rn", AVal.vstr "v2")]) = true ∧
        isOkB (delete mgrW sessDbW resW) = true ∧
        isOkB (get mgrW sessDbW resW) = true) ∧
      ((assocGet? mgrW.db_model_map resUnknownW.cls).isSome = true →
        isOkB (find mgrW sessDbW resUnknownW.cls
          [("vrf_rn", AVal.vstr "v2")]) = true)) :=
  ⟨by decide,
    c5_unknown_resource_type_only mgrW sessDbW resW resUnknownW.cls
      [("vrf_rn", AVal.vstr "v2")] true (by decide)⟩

end Aim

namespace Aim

/-- C2 (amended): in a session that started clean, after any sequence of
engine calls at least one of which staged a mutation, the commit hook is
attached; attaching it again is a no-op (so repeated registration produces
no duplicate invocations); and the single commit-time hook firing invokes
the listeners exactly per the registration list — in particular every
listener registered exactly once is invoked exactly once for the session,
regardless of how many create/update/delete calls were made against it. -/
theorem c2_commit_hook_fires_once (m : AimManager) (s0 : Session)
    (ops : List AimOp) (h0 : s0.hookAttached = false)
    (hstage : stagedB (runOps m s0 ops).2 = true) :
    ((runOps m s0 ops).1).hookAttached = true ∧
    addCommitHook (runOps m s0 ops).1 [] = ((runOps m s0 ops).1, []) ∧
    (sessionCommit m (runOps m s0 ops).1).map Invocation.listener =
      m.update_listeners ∧
    ∀ f : String, m.update_listeners.count f = 1 →
      ((sessionCommit m (runOps m s0 ops).1).map Invocation.listener).count f
        = 1 := by
  have hh : ((runOps m s0 ops).1).hookAttached = true := by
    rw [runOps_hookAttached m ops s0, h0, hstage, Bool.false_or]
  refine ⟨hh, addCommitHook_of_attached _ _ hh,
    map_listener_sessionCommit m _ hh, ?_⟩
  intro f hf
  rw [map_listener_sessionCommit m _ hh, hf]

/-- Witness for C2 (amended): one create staged a mutation, the hook is
attached, re-attaching changes nothing, and the single commit firing
invokes the one registered listener once. -/
theorem c2_commit_hook_fires_once_witness :
    sessW.hookAttached = false ∧
    stagedB (runOps mgrW sessW [AimOp.opCreate resW false]).2 = true ∧
    (((runOps mgrW sessW [AimOp.opCreate resW false]).1).hookAttached = true ∧
     addCommitHook (runOps mgrW sessW [AimOp.opCreate resW false]).1 [] =
       ((runOps mgrW sessW [AimOp.opCreate resW false]).1, []) ∧
     (sessionCommit mgrW
        (runOps mgrW sessW [AimOp.opCreate resW false]).1).map
          Invocation.listener = mgrW.update_listeners ∧
     ∀ f : String, mgrW.update_listeners.count f = 1 →
       ((sessionCommit mgrW
          (runOps mgrW sessW [AimOp.opCreate resW false]).1).map
            Invocation.listener).count f = 1) :=
  ⟨rfl, by decide,
    c2_commit_hook_fires_once mgrW sessW [AimOp.opCreate resW false]
      rfl (by decide)⟩

/-- C2 counterexample: with the same listener registered twice (the code
appends unconditionally), one create in one clean session leads to that
registered listener being invoked twice at commit, not exactly once. -/
theorem c2_duplicate_listener_counterexample :
    stagedB (runOps mgrDupW sessW [AimOp.opCreate resW false]).2 = true ∧
    "dup_listener" ∈ mgrDupW.update_listeners ∧
    ((sessionCommit mgrDupW
        (runOps mgrDupW sessW [AimOp.opCreate resW false]).1).map
          Invocation.listener).count "dup_listener" = 2 := by
  refine ⟨by decide, by decide, by decide⟩

/-- C3 (amended): when the pre-commit hook fires for a session whose three
native change-sets contain no record of any registered backing type, the
listeners are still all invoked — each receives the session with three
empty lists, rather than not being invoked at all. -/
theorem c3_listeners_fire_with_empty_lists (m : AimManager) (s : Session)
    (hall : ∀ o ∈ s.newSet ++ s.dirtySet ++ s.deletedSet,
      assocGet? m.resource_map o.modelCls = none) :
    beforeSessionCommit m s = m.update_listeners.map (fun f =>
      { listener := f, added := [], updated := [], deleted := [] }) := by
  have h1 : pickChanged m s.newSet = [] :=
    pickChanged_nil m _ (fun o ho => hall o (by simp [ho]))
  have h2 : pickChanged m s.dirtySet = [] :=
    pickChanged_nil m _ (fun o ho => hall o (by simp [ho]))
  have h3 : pickChanged m s.deletedSet = [] :=
    pickChanged_nil m _ (fun o ho => hall o (by simp [ho]))
  unfold beforeSessionCommit
  rw [h1, h2, h3]

/-- Witness for C3 (amended) at a session whose only pending record is of
a model class foreign to the manager. -/
theorem c3_listeners_fire_with_empty_lists_witness :
    (∀ o ∈ sessForeignW.newSet ++ sessForeignW.dirtySet ++
        sessForeignW.deletedSet,
      assocGet? mgrW.resource_map o.modelCls = none) ∧
    beforeSessionCommit mgrW sessForeignW =
      mgrW.update_listeners.map (fun f =>
        { listener := f, added := [], updated := [], deleted := [] }) :=
  ⟨by decide, c3_listeners_fire_with_empty_lists mgrW sessForeignW (by decide)⟩

/-- C3 counterexample: a hook-attached session whose change-sets hold only
a record of an unregistered model class still invokes the registered
listener (with three empty lists) at commit — the claim says no listener
is invoked in that situation. -/
theorem c3_empty_changesets_counterexample :
    (∀ o ∈ sessForeignW.newSet ++ sessForeignW.dirtySet ++
        sessForeignW.deletedSet,
      assocGet? mgrW.resource_map o.modelCls = none) ∧
    sessForeignW.hookAttached = true ∧
    sessionCommit mgrW sessForeignW =
      [{ listener := "listener_one", added := [], updated := [],
         deleted := [] }] ∧
    sessionCommit mgrW sessForeignW ≠ [] := by
  refine ⟨by decide, rfl, by decide, by decide⟩

/-- C8 (amended): listeners are invoked in registration order (the
invocation list mirrors `update_listeners`, and registration appends), and
for a listener registered at most once, after a successful
`unregister_update_listener` it receives no notification from any session,
including one whose hook was already attached. -/
theorem c8_unregister_stops_notifications (m : AimManager) (f : String)
    (s : Session) (m1 : AimManager)
    (hcount : m.update_listeners.count f ≤ 1)
    (hunreg : unregister_update_listener m f = some m1) :
    f ∉ (sessionCommit m1 s).map Invocation.listener ∧
    (beforeSessionCommit m1 s).map Invocation.listener =
      m1.update_listeners ∧
    ∀ g : String, (register_update_listener m1 g).update_listeners =
      m1.update_listeners ++ [g] := by
  have hm1 := unregister_some m f m1 hunreg
  have hnotin : f ∉ m1.update_listeners := by
    rw [hm1]
    exact not_mem_removeFirstListener _ _ hcount
  refine ⟨?_, map_listener_beforeSessionCommit m1 s, fun g => rfl⟩
  intro hmem
  by_cases hs : s.hookAttached = true
  · rw [map_listener_sessionCommit m1 s hs] at hmem
    exact hnotin hmem
  · have hs0 : s.hookAttached = false := by
      cases h : s.hookAttached
      · rfl
      · exact absurd h hs
    simp [sessionCommit, hs0] at hmem

/-- Witness for C8 (amended): unregistering the single registered listener
leaves it out of the commit-time invocations of an already-hooked session. -/
theorem c8_unregister_stops_notifications_witness :
    mgrW.update_listeners.count "listener_one" ≤ 1 ∧
    unregister_update_listener mgrW "listener_one" = some mgrEmptyW ∧
    ("listener_one" ∉
        (sessionCommit mgrEmptyW sessHookedW).map Invocation.listener ∧
      (beforeSessionCommit mgrEmptyW sessHookedW).map Invocation.listener =
        mgrEmptyW.update_listeners ∧
      ∀ g : String,
        (register_update_listener mgrEmptyW g).update_listeners =
          mgrEmptyW.update_listeners ++ [g]) :=
  ⟨by decide, by decide,
    c8_unregister_stops_notifications mgrW "listener_one" sessHookedW
      mgrEmptyW (by decide) (by decide)⟩

/-- C8 counterexample: with the same listener registered twice,
`unregister_update_listener` removes only the first occurrence, so the
listener still receives a notification from a hook-attached session after
unregistration has returned — the claim says it receives none. -/
theorem c8_duplicate_registration_counterexample :
    (unregister_update_listener mgrDupW "dup_listener").map
        (fun m1 => (sessionCommit m1 sessHookedW).map Invocation.listener) =
      some ["dup_listener"] := by
  decide

end Aim

namespace Aim

/-- C1: for a registered class and a resource whose identity-attribute
values match no existing record, `create` stages a fresh record, and `get`
with any resource carrying the same identity-attribute values returns a
resource equal, on all declared identity and other attributes, to the one
that was created. -/
theorem c1_create_then_get_roundtrip
    (m : AimManager) (s : Session) (c : ResClass) (dbCls : String)
    (r rq : Resource)
    (hreg : assocGet? m.db_model_map c = some dbCls)
    (hrc : r.cls = c) (hqc : rq.cls = c)
    (_hidr : IdPresent c r) (_hidq : IdPresent c rq)
    (hsame : ∀ k ∈ c.identity_attributes,
      dictGetD rq.attrs k = dictGetD r.attrs k)
    (hfresh : ∀ o ∈ s.db, dbObjPred m r o = false) :
    ∃ s1 tr, create m s r false = Except.ok (s1, tr) ∧
      get m s1 rq = Except.ok (some (makeResource c (makeDbObj m r))) ∧
      attrEqB c (makeResource c (makeDbObj m r)) r = true := by
  have hvr : validateResourceClass m r.cls = Except.ok dbCls := by
    rw [hrc]
    simp [validateResourceClass, hreg]
  have hvc : validateResourceClass m c = Except.ok dbCls := by
    simp [validateResourceClass, hreg]
  have hrecCls : (makeDbObj m r).modelCls = dbCls := by
    simp [makeDbObj, hrc, hreg]
  have hrecGet : ∀ k, (k ∈ c.identity_attributes ∨ k ∈ c.other_attributes) →
      dictGetD (makeDbObj m r).attrs k = dictGetD r.attrs k := by
    intro k hk
    have h1 : assocGet? (makeDbObj m r).attrs k =
        assocGet? (extractAttributes r AttrScope.all) k := by
      show assocGet? (dictUpdate [] (extractAttributes r AttrScope.all)) k = _
      rw [assocGet?_dictUpdate_nodup (extractAttributes r AttrScope.all) []
        (nodupKeys_extract r AttrScope.all) k]
      cases hx : assocGet? (extractAttributes r AttrScope.all) k <;> rfl
    unfold dictGetD
    rw [h1, assocGet?_extract_all, hrc]
    simp [hk]
    rfl
  have hpredrec : dbObjPred m r (makeDbObj m r) = true := by
    have hm : recordMatches (extractAttributes r AttrScope.idOnly)
        (makeDbObj m r) = true :=
      (recordMatches_extract_id_iff r (makeDbObj m r)).mpr
        (fun k hk => hrecGet k (Or.inl (by rw [hrc] at hk; exact hk)))
    unfold dbObjPred recordPred
    rw [hrc, hreg]
    simp [hrecCls, hm]
  have hpredEq : dbObjPred m rq = dbObjPred m r :=
    dbObjPred_congr m r rq (by rw [hqc, hrc])
      (fun k hk => hsame k (by rw [hrc] at hk; exact hk))
  have hget : ∀ sx : Session, sx.db = s.db ++ [makeDbObj m r] →
      get m sx rq = Except.ok (some (makeResource c (makeDbObj m r))) := by
    intro sx hdb
    have hfind : queryDbObj m sx rq = some (makeDbObj m r) := by
      unfold queryDbObj
      rw [hdb, hpredEq, find?_append_of_none _ _ _ hfresh]
      simp [List.find?, hpredrec]
    simp [get, hqc, hvc, hfind]
  have hattr : attrEqB c (makeResource c (makeDbObj m r)) r = true := by
    unfold attrEqB
    rw [List.all_eq_true]
    intro k hk
    rw [decide_eq_true_eq]
    have hor : k ∈ c.identity_attributes ∨ k ∈ c.other_attributes :=
      List.mem_append.mp hk
    have hk2 : k ∈ c.other_attributes ++ c.identity_attributes :=
      List.mem_append.mpr (Or.symm hor)
    have hmk : assocGet? (makeResource c (makeDbObj m r)).attrs k =
        assocGet? (makeDbObj m r).attrs k := by
      show assocGet? (((makeDbObj m r).attrs).filter
        (fun kv => decide (kv.1 ∈ c.other_attributes ++
          c.identity_attributes))) k = _
      rw [assocGet?_filter ((makeDbObj m r).attrs)
        (fun x => decide (x ∈ c.other_attributes ++ c.identity_attributes)) k]
      simp [hk2]
    unfold dictGetD
    rw [hmk]
    have h3 := hrecGet k hor
    unfold dictGetD at h3
    exact h3
  have hcreate : create m s r false = Except.ok
      (addCommitHook
        { s with
          db := s.db ++ [makeDbObj m r],
          newSet := s.newSet ++ [makeDbObj m r] }
        [Effect.txnBegin, Effect.sessAdd]) := by
    unfold create
    rw [hvr]
    rfl
  have hcreate2 : create m s r false = Except.ok
      ((addCommitHook
        { s with
          db := s.db ++ [makeDbObj m r],
          newSet := s.newSet ++ [makeDbObj m r] }
        [Effect.txnBegin, Effect.sessAdd]).1,
       (addCommitHook
        { s with
          db := s.db ++ [makeDbObj m r],
          newSet := s.newSet ++ [makeDbObj m r] }
        [Effect.txnBegin, Effect.sessAdd]).2) := by
    rw [Prod.mk.eta]
    exact hcreate
  exact ⟨_, _, hcreate2, hget _ (by rw [addCommitHook_db]), hattr⟩

/-- Witness for C1: create `resW` in an empty store, then get it back via
a resource carrying only the identity attributes; the composed resource
agrees with `resW` on all declared attributes. -/
theorem c1_create_then_get_roundtrip_witness :
    (assocGet? mgrW.db_model_map bdCls = some "BridgeDomainModel" ∧
      resW.cls = bdCls ∧ resQW.cls = bdCls ∧
      IdPresent bdCls resW ∧ IdPresent bdCls resQW ∧
      (∀ k ∈ bdCls.identity_attributes,
        dictGetD resQW.attrs k = dictGetD resW.attrs k) ∧
      (∀ o ∈ sessW.db, dbObjPred mgrW resW o = false)) ∧
    ∃ s1 tr, create mgrW sessW resW false = Except.ok (s1, tr) ∧
      get mgrW s1 resQW =
        Except.ok (some (makeResource bdCls (makeDbObj mgrW resW))) ∧
      attrEqB bdCls (makeResource bdCls (makeDbObj mgrW resW)) resW = true :=
  ⟨⟨by decide, rfl, rfl, by decide, by decide, by decide, by decide⟩,
    c1_create_then_get_roundtrip mgrW sessW bdCls "BridgeDomainModel"
      resW resQW (by decide) rfl rfl (by decide) (by decide) (by decide)
      (by decide)⟩

end Aim

namespace Aim

theorem assocGet?_from_attr_other (r : Resource) (o : DbRecord) (k : String) :
    assocGet? (o.from_attr (extractAttributes r AttrScope.otherOnly)).attrs k =
      if k ∈ r.cls.other_attributes then some (dictGetD r.attrs k)
      else assocGet? o.attrs k := by
  show assocGet? (dictUpdate o.attrs (extractAttributes r AttrScope.otherOnly)) k = _
  rw [assocGet?_dictUpdate_nodup (extractAttributes r AttrScope.otherOnly)
    o.attrs (nodupKeys_extract r AttrScope.otherOnly) k,
    assocGet?_extract_other]
  by_cases h : k ∈ r.cls.other_attributes <;> simp [h]

/-- C6: `create` with overwrite on a resource whose identity matches an
existing record stages exactly that record with its declared "other"
attributes overwritten from the resource; for a class whose declared
identity and other attributes are disjoint, the record's
identity-attribute values are unchanged, and every column outside the
declared other attributes is untouched. -/
theorem c6_overwrite_preserves_identity
    (m : AimManager) (s : Session) (c : ResClass) (dbCls : String)
    (r : Resource) (o0 : DbRecord)
    (hreg : assocGet? m.db_model_map c = some dbCls)
    (hrc : r.cls = c) (_hid : IdPresent c r)
    (hdisj : ∀ k ∈ c.identity_attributes, k ∉ c.other_attributes)
    (hfound : queryDbObj m s r = some o0) :
    create m s r true = Except.ok
      (addCommitHook
        { s with
          db := replaceFirst s.db (dbObjPred m r)
            (fun o => o.from_attr (extractAttributes r AttrScope.otherOnly)),
          dirtySet := s.dirtySet ++
            [o0.from_attr (extractAttributes r AttrScope.otherOnly)] }
        [Effect.txnBegin, Effect.dbQuery, Effect.sessAdd]) ∧
    (∀ k, k ∉ c.other_attributes →
      assocGet? (o0.from_attr
          (extractAttributes r AttrScope.otherOnly)).attrs k =
        assocGet? o0.attrs k) ∧
    (∀ k ∈ c.identity_attributes,
      dictGetD (o0.from_attr
          (extractAttributes r AttrScope.otherOnly)).attrs k =
        dictGetD o0.attrs k) ∧
    (∀ k ∈ c.other_attributes,
      dictGetD (o0.from_attr
          (extractAttributes r AttrScope.otherOnly)).attrs k =
        dictGetD r.attrs k) := by
  have hvr : validateResourceClass m r.cls = Except.ok dbCls := by
    rw [hrc]
    simp [validateResourceClass, hreg]
  have hframe : ∀ k, k ∉ c.other_attributes →
      assocGet? (o0.from_attr
          (extractAttributes r AttrScope.otherOnly)).attrs k =
        assocGet? o0.attrs k := by
    intro k hk
    rw [assocGet?_from_attr_other, hrc]
    simp [hk]
  refine ⟨?_, hframe, ?_, ?_⟩
  · unfold create
    rw [hvr, hfound]
    rfl
  · intro k hk
    unfold dictGetD
    rw [hframe k (hdisj k hk)]
  · intro k hk
    unfold dictGetD
    rw [assocGet?_from_attr_other, hrc]
    simp [hk]
    rfl

/-- Witness for C6 at a concrete session holding a record with the
identity of `resW`. -/
theorem c6_overwrite_preserves_identity_witness :
    (assocGet? mgrW.db_model_map bdCls = some "BridgeDomainModel" ∧
      resW.cls = bdCls ∧ IdPresent bdCls resW ∧
      (∀ k ∈ bdCls.identity_attributes, k ∉ bdCls.other_attributes) ∧
      queryDbObj mgrW sessDbW resW = some recW) ∧
    (create mgrW sessDbW resW true = Except.ok
      (addCommitHook
        { sessDbW with
          db := replaceFirst sessDbW.db (dbObjPred mgrW resW)
            (fun o => o.from_attr (extractAttributes resW AttrScope.otherOnly)),
          dirtySet := sessDbW.dirtySet ++
            [recW.from_attr (extractAttributes resW AttrScope.otherOnly)] }
        [Effect.txnBegin, Effect.dbQuery, Effect.sessAdd]) ∧
    (∀ k, k ∉ bdCls.other_attributes →
      assocGet? (recW.from_attr
          (extractAttributes resW AttrScope.otherOnly)).attrs k =
        assocGet? recW.attrs k) ∧
    (∀ k ∈ bdCls.identity_attributes,
      dictGetD (recW.from_attr
          (extractAttributes resW AttrScope.otherOnly)).attrs k =
        dictGetD recW.attrs k) ∧
    (∀ k ∈ bdCls.other_attributes,
      dictGetD (recW.from_attr
          (extractAttributes resW AttrScope.otherOnly)).attrs k =
        dictGetD resW.attrs k)) :=
  ⟨⟨by decide, rfl, by decide, by decide, by decide⟩,
    c6_overwrite_preserves_identity mgrW sessDbW bdCls "BridgeDomainModel"
      resW recW (by decide) rfl (by decide) (by decide) (by decide)⟩

/-- C9: `create` with overwrite on an existing identity writes a value for
every declared "other" attribute of the class onto the located record —
the value the resource carries, or `None` when the resource leaves the
attribute unset — replacing the whole other-attribute payload rather than
merging only the attributes present on the input. -/
theorem c9_overwrite_writes_full_other_payload
    (m : AimManager) (s : Session) (c : ResClass) (dbCls : String)
    (r : Resource) (o0 : DbRecord)
    (hreg : assocGet? m.db_model_map c = some dbCls)
    (hrc : r.cls = c) (_hid : IdPresent c r)
    (hfound : queryDbObj m s r = some o0) :
    create m s r true = Except.ok
      (addCommitHook
        { s with
          db := replaceFirst s.db (dbObjPred m r)
            (fun o => o.from_attr (extractAttributes r AttrScope.otherOnly)),
          dirtySet := s.dirtySet ++
            [o0.from_attr (extractAttributes r AttrScope.otherOnly)] }
        [Effect.txnBegin, Effect.dbQuery, Effect.sessAdd]) ∧
    (∀ k ∈ c.other_attributes,
      assocGet? (o0.from_attr
          (extractAttributes r AttrScope.otherOnly)).attrs k =
        some ((assocGet? r.attrs k).getD AVal.vnone)) := by
  have hvr : validateResourceClass m r.cls = Except.ok dbCls := by
    rw [hrc]
    simp [validateResourceClass, hreg]
  refine ⟨?_, ?_⟩
  · unfold create
    rw [hvr, hfound]
    rfl
  · intro k hk
    rw [assocGet?_from_attr_other, hrc]
    simp [hk, dictGetD]

/-- Witness for C9: `resW` leaves `enable_routing` unset, and the
overwrite writes `None` over the record's previous value for it. -/
theorem c9_overwrite_writes_full_other_payload_witness :
    (assocGet? mgrW.db_model_map bdCls = some "BridgeDomainModel" ∧
      resW.cls = bdCls ∧ IdPresent bdCls resW ∧
      queryDbObj mgrW sessDbW resW = some recW ∧
      assocGet? resW.attrs "enable_routing" = none ∧
      assocGet? recW.attrs "enable_routing" = some (AVal.vnat 1) ∧
      assocGet? (recW.from_attr
          (extractAttributes resW AttrScope.otherOnly)).attrs
        "enable_routing" = some AVal.vnone) ∧
    (create mgrW sessDbW resW true = Except.ok
      (addCommitHook
        { sessDbW with
          db := replaceFirst sessDbW.db (dbObjPred mgrW resW)
            (fun o => o.from_attr (extractAttributes resW AttrScope.otherOnly)),
          dirtySet := sessDbW.dirtySet ++
            [recW.from_attr (extractAttributes resW AttrScope.otherOnly)] }
        [Effect.txnBegin, Effect.dbQuery, Effect.sessAdd]) ∧
    (∀ k ∈ bdCls.other_attributes,
      assocGet? (recW.from_attr
          (extractAttributes resW AttrScope.otherOnly)).attrs k =
        some ((assocGet? resW.attrs k).getD AVal.vnone))) :=
  ⟨⟨by decide, rfl, by decide, by decide, by decide, by decide, by decide⟩,
    c9_overwrite_writes_full_other_payload mgrW sessDbW bdCls
      "BridgeDomainModel" resW recW (by decide) rfl (by decide) (by decide)⟩

end Aim

namespace Aim

/-- C7: `update` with a non-empty changed-attribute dict on a located
record applies exactly the entries whose keys are declared "other"
attributes of the class: such entries take effect, while entries naming
identity attributes or unknown keys, and attributes not named at all,
leave the record's columns unchanged. -/
theorem c7_update_filters_other_attributes
    (m : AimManager) (s : Session) (c : ResClass) (dbCls : String)
    (r : Resource) (o0 : DbRecord) (kvs : Attrs)
    (hreg : assocGet? m.db_model_map c = some dbCls)
    (hrc : r.cls = c) (_hid : IdPresent c r)
    (hne : kvs ≠ [])
    (hnd : (kvs.map Prod.fst).Nodup)
    (hfound : queryDbObj m s r = some o0) :
    update m s r kvs = Except.ok
      (addCommitHook
        { s with
          db := replaceFirst s.db (dbObjPred m r)
            (fun o => o.from_attr (kvs.filter
              (fun kv => decide (kv.1 ∈ r.cls.other_attributes)))),
          dirtySet := s.dirtySet ++
            [o0.from_attr (kvs.filter
              (fun kv => decide (kv.1 ∈ r.cls.other_attributes)))] }
        [Effect.txnBegin, Effect.dbQuery, Effect.sessAdd]) ∧
    (∀ k v, assocGet? kvs k = some v → k ∈ c.other_attributes →
      assocGet? (o0.from_attr (kvs.filter
        (fun kv => decide (kv.1 ∈ r.cls.other_attributes)))).attrs k =
        some v) ∧
    (∀ k, k ∉ c.other_attributes →
      assocGet? (o0.from_attr (kvs.filter
        (fun kv => decide (kv.1 ∈ r.cls.other_attributes)))).attrs k =
        assocGet? o0.attrs k) ∧
    (∀ k, assocGet? kvs k = none →
      assocGet? (o0.from_attr (kvs.filter
        (fun kv => decide (kv.1 ∈ r.cls.other_attributes)))).attrs k =
        assocGet? o0.attrs k) := by
  have hvr : validateResourceClass m r.cls = Except.ok dbCls := by
    rw [hrc]
    simp [validateResourceClass, hreg]
  have hie : kvs.isEmpty = false := by
    cases kvs with
    | nil => exact absurd rfl hne
    | cons a l => rfl
  have hndf : ((kvs.filter
      (fun kv => decide (kv.1 ∈ r.cls.other_attributes))).map
        Prod.fst).Nodup :=
    List.Nodup.sublist ((List.filter_sublist kvs).map Prod.fst) hnd
  have hmain : ∀ k : String,
      assocGet? (o0.from_attr (kvs.filter
        (fun kv => decide (kv.1 ∈ r.cls.other_attributes)))).attrs k =
      match assocGet? (kvs.filter
        (fun kv => decide (kv.1 ∈ r.cls.other_attributes))) k with
      | some v => some v
      | none => assocGet? o0.attrs k := by
    intro k
    exact assocGet?_dictUpdate_nodup _ o0.attrs hndf k
  have hfil : ∀ k : String,
      assocGet? (kvs.filter
        (fun kv => decide (kv.1 ∈ r.cls.other_attributes))) k =
      if decide (k ∈ r.cls.other_attributes) then assocGet? kvs k
      else none :=
    fun k => assocGet?_filter kvs
      (fun x => decide (x ∈ r.cls.other_attributes)) k
  refine ⟨?_, ?_, ?_, ?_⟩
  · unfold update
    rw [hvr, hie, hfound]
    rfl
  · intro k v hv hk
    rw [hmain k, hfil k, hrc]
    simp [hk, hv]
  · intro k hk
    rw [hmain k, hfil k, hrc]
    simp [hk]
  · intro k hv
    rw [hmain k, hfil k, hv]
    by_cases hk : k ∈ r.cls.other_attributes <;> simp [hk]

/-- Witness for C7: an update naming one declared other attribute, one
identity attribute, and one unknown key applies only the first. -/
theorem c7_update_filters_other_attributes_witness :
    (assocGet? mgrW.db_model_map bdCls = some "BridgeDomainModel" ∧
      resW.cls = bdCls ∧ IdPresent bdCls resW ∧
      ([("vrf_rn", AVal.vstr "v2"), ("rn", AVal.vstr "evil"),
        ("bogus", AVal.vnat 7)] : Attrs) ≠ [] ∧
      (([("vrf_rn", AVal.vstr "v2"), ("rn", AVal.vstr "evil"),
        ("bogus", AVal.vnat 7)] : Attrs).map Prod.fst).Nodup ∧
      queryDbObj mgrW sessDbW resW = some recW) ∧
    (update mgrW sessDbW resW
      [("vrf_rn", AVal.vstr "v2"), ("rn", AVal.vstr "evil"),
        ("bogus", AVal.vnat 7)] = Except.ok
      (addCommitHook
        { sessDbW with
          db := replaceFirst sessDbW.db (dbObjPred mgrW resW)
            (fun o => o.from_attr
              (([("vrf_rn", AVal.vstr "v2"), ("rn", AVal.vstr "evil"),
                ("bogus", AVal.vnat 7)] : Attrs).filter
                (fun kv => decide (kv.1 ∈ resW.cls.other_attributes)))),
          dirtySet := sessDbW.dirtySet ++
            [recW.from_attr
              (([("vrf_rn", AVal.vstr "v2"), ("rn", AVal.vstr "evil"),
                ("bogus", AVal.vnat 7)] : Attrs).filter
                (fun kv => decide (kv.1 ∈ resW.cls.other_attributes)))] }
        [Effect.txnBegin, Effect.dbQuery, Effect.sessAdd]) ∧
    (∀ k v, assocGet? ([("vrf_rn", AVal.vstr "v2"),
        ("rn", AVal.vstr "evil"), ("bogus", AVal.vnat 7)] : Attrs) k =
          some v →
      k ∈ bdCls.other_attributes →
      assocGet? (recW.from_attr
        (([("vrf_rn", AVal.vstr "v2"), ("rn", AVal.vstr "evil"),
          ("bogus", AVal.vnat 7)] : Attrs).filter
          (fun kv => decide (kv.1 ∈ resW.cls.other_attributes)))).attrs k =
        some v) ∧
    (∀ k, k ∉ bdCls.other_attributes →
      assocGet? (recW.from_attr
        (([("vrf_rn", AVal.vstr "v2"), ("rn", AVal.vstr "evil"),
          ("bogus", AVal.vnat 7)] : Attrs).filter
          (fun kv => decide (kv.1 ∈ resW.cls.other_attributes)))).attrs k =
        assocGet? recW.attrs k) ∧
    (∀ k, assocGet? ([("vrf_rn", AVal.vstr "v2"),
        ("rn", AVal.vstr "evil"), ("bogus", AVal.vnat 7)] : Attrs) k =
          none →
      assocGet? (recW.from_attr
        (([("vrf_rn", AVal.vstr "v2"), ("rn", AVal.vstr "evil"),
          ("bogus", AVal.vnat 7)] : Attrs).filter
          (fun kv => decide (kv.1 ∈ resW.cls.other_attributes)))).attrs k =
        assocGet? recW.attrs k)) :=
  ⟨⟨by decide, rfl, by decide, by decide, by decide, by decide⟩,
    c7_update_filters_other_attributes mgrW sessDbW bdCls
      "BridgeDomainModel" resW recW
      [("vrf_rn", AVal.vstr "v2"), ("rn", AVal.vstr "evil"),
        ("bogus", AVal.vnat 7)]
      (by decide) rfl (by decide) (by decide) (by decide) (by decide)⟩

end Aim
